import Mathlib

/-!
Verification of the profile-picture upload core of a small Flask user
management application (`app/modules/Image.py` together with the `account`
route of `app/modules/controllers.py`).

Strings are modelled as `List Char`.  The profile-picture storage
directory is modelled as the set of paths currently existing on disk;
the database is a list of user rows.  Python exceptions are modelled as
`Except`-style results that also carry the file-system state reached at
the point the exception was raised (Python side effects performed before
an exception persist).
-/

deriving instance DecidableEq for Except

/-- Errors the upload pipeline can raise (Python exceptions). -/
inductive PyErr
  | attributeError  -- `user.profile_image` on `None` (user lookup miss)
  | decodeError     -- `PIL.Image.open` fails on undecodable bytes
  | ioError         -- disk write of the thumbnail fails
  deriving DecidableEq, Repr

/-- Index of the last occurrence of `c` in `p`, or `none`
(the semantics of Python `str.rfind` restricted to an existence answer). -/
def lastIndexOf : List Char → Char → Option Nat
  | [], _ => none
  | a :: rest, c =>
    match lastIndexOf rest c with
    | some i => some (i + 1)
    | none => if a = c then some 0 else none

/-- Python `str.rfind`: index of the last occurrence, `-1` if absent. -/
def rfind (p : List Char) (c : Char) : Int :=
  match lastIndexOf p c with
  | some i => (i : Int)
  | none => -1

/-- `os.path.splitext` (POSIX): split off the extension at the last `'.'`,
provided that dot lies after the last `'/'` and after at least one
non-dot character of the basename (leading dots of a basename, as in
hidden files such as `".bashrc"`, never start an extension).
Mirrors CPython `genericpath._splitext`. -/
def splitext (p : List Char) : List Char × List Char :=
  let sepIndex := rfind p '/'
  let dotIndex := rfind p '.'
  if sepIndex < dotIndex then
    let d := dotIndex.toNat
    let start := (sepIndex + 1).toNat
    if ((p.drop start).take (d - start)).any (fun c => c ≠ '.') then
      (p.take d, p.drop d)
    else
      (p, [])
  else
    (p, [])

/-- A user row (only the columns the upload pipeline touches):
`User` in `app/modules/models.py`. -/
structure User where
  id : Nat
  profile_image : List Char
  deriving DecidableEq, Repr

/-- The user table; `User.query.filter_by(id=id).first()` is `find_user`. -/
structure DB where
  users : List User
  deriving DecidableEq, Repr

def find_user (db : DB) (id : Nat) : Option User :=
  db.users.find? (fun u => u.id = id)

/-- `current_user.profile_image = fn` followed by `db.session.commit()`:
persist a new filename on the row with the given id. -/
def set_profile_image (db : DB) (id : Nat) (fn : List Char) : DB :=
  { users := db.users.map (fun u => if u.id = id then { u with profile_image := fn } else u) }

/-- A decoded image: only its pixel dimensions matter here. -/
structure Img where
  width : Nat
  height : Nat
  deriving DecidableEq, Repr

/-- The uploaded file (`werkzeug` `FileStorage`): an original filename and
the byte stream, abstracted to `some` decoded image or `none` when
`PIL.Image.open` would raise on the bytes. -/
structure FormPicture where
  filename : List Char
  content : Option Img
  deriving DecidableEq, Repr

/-- The profile-picture directory on disk: the set of existing paths. -/
structure FS where
  files : List (List Char)
  deriving DecidableEq, Repr

def FS.exists_path (fs : FS) (p : List Char) : Bool :=
  p ∈ fs.files

/-- `os.remove(p)` (the caller has already checked existence). -/
def FS.remove (fs : FS) (p : List Char) : FS :=
  { files := fs.files.filter (fun q => q ≠ p) }

/-- `resize.save(p)`: write (or overwrite) the file at `p`. -/
def FS.write (fs : FS) (p : List Char) : FS :=
  { files := p :: (fs.remove p).files }

/-- `os.path.join(app.root_path, 'static/img/profile_pics', fn)`.
All joins in the source use this one relative directory and a plain
filename, so the join is plain concatenation with separators. -/
def path_join (root fn : List Char) : List Char :=
  root ++ ('/' :: String.toList "static/img/profile_pics") ++ ('/' :: fn)

/-- Ambient request context: `app.root_path`, the value the call to
`secrets.token_hex(8)` returns, and whether the disk write of the new
thumbnail succeeds (a write failure raises `ioError`). -/
structure Env where
  root_path : List Char
  token : List Char
  save_ok : Bool
  deriving Repr

/-- `secrets.token_hex(8)` always returns 16 lowercase hexadecimal
characters; the random value itself is a parameter (`Env.token`). -/
def token_hex_spec (t : List Char) : Prop :=
  t.length = 16 ∧ ∀ c ∈ t, c ∈ String.toList "0123456789abcdef"

instance (t : List Char) : Decidable (token_hex_spec t) := by
  unfold token_hex_spec; infer_instance

/-- Modelled from the spec: the thumbnail resize performed by the external
imaging library (`resize.thumbnail((125,125))`, not part of this
repository) — fit within a 125x125 bounding box, preserving aspect
ratio, shrink-only (an image already inside the box is unchanged). -/
def thumbnail (img : Img) : Img :=
  if img.width ≤ 125 ∧ img.height ≤ 125 then
    img
  else if img.height ≤ img.width then
    { width := 125, height := max 1 (img.height * 125 / img.width) }
  else
    { width := max 1 (img.width * 125 / img.height), height := 125 }

/-- `save_picture(form_picture, id)` from `app/modules/Image.py`, line by
line.  The result pairs the outcome (`ok picture_fn` or a raised
exception) with the file-system state at return/raise time. -/
def save_picture (env : Env) (form_picture : FormPicture) (id : Nat)
    (db : DB) (fs : FS) : Except PyErr (List Char) × FS :=
  match find_user db id with
  | none => (.error .attributeError, fs)   -- `None.profile_image` raises
  | some user =>
    -- `if user.profile_image:` — Python truthiness of the string
    let fs1 :=
      if user.profile_image ≠ [] then
        let p := path_join env.root_path user.profile_image
        if fs.exists_path p then fs.remove p else fs
      else fs
    let random_hex := env.token
    let f_ext := (splitext form_picture.filename).2
    let picture_fn := random_hex ++ f_ext
    let picture_path := path_join env.root_path picture_fn
    match form_picture.content with
    | none => (.error .decodeError, fs1)   -- `Image.open` raises
    | some img =>
      let _resized := thumbnail img
      if env.save_ok then
        (.ok picture_fn, fs1.write picture_path)
      else
        (.error .ioError, fs1)             -- `resize.save` raises

/-- The two outcomes of `picture_validation`: `(picture_file, True)` or
`(allowed_ext, False)`. -/
inductive PicResult
  | accepted (fn : List Char)
  | rejected (exts : List (List Char))
  deriving DecidableEq, Repr

def allowed_ext : List (List Char) :=
  [String.toList "jpg", String.toList "png"]

/-- `picture_validation(picture, id)` from `app/modules/Image.py`. -/
def picture_validation (env : Env) (picture : FormPicture) (id : Nat)
    (db : DB) (fs : FS) : Except PyErr PicResult × FS :=
  let file_ext := (splitext picture.filename).2
  let file_ext := file_ext.filter (fun c => c ≠ '.')  -- `.replace('.','')`
  if (file_ext.map Char.toLower) ∈ allowed_ext then
    match save_picture env picture id db fs with
    | (.ok picture_file, fs') => (.ok (.accepted picture_file), fs')
    | (.error e, fs') => (.error e, fs')
  else
    (.ok (.rejected allowed_ext), fs)

/-- The extension check of `picture_validation` in isolation
(`is_allowed` of the specification, extracted verbatim from
`app/modules/Image.py` lines 25-28). -/
def is_allowed (f : List Char) : Bool :=
  (((splitext f).2.filter (fun c => c ≠ '.')).map Char.toLower) ∈ allowed_ext

/-- The picture-upload slice of the `account` route
(`app/modules/controllers.py`): on a non-empty upload filename run
`picture_validation`; on `(…, False)` flash and redirect without
touching the database; otherwise set `current_user.profile_image` and
`db.session.commit()`.  The returned `Bool` is `true` when the commit
path was reached and `false` on the validation-failure redirect.
The unrelated `name`/`email` form fields are not modelled. -/
def account_update (env : Env) (image : FormPicture) (id : Nat)
    (db : DB) (fs : FS) : Except PyErr Bool × DB × FS :=
  if image.filename ≠ [] then
    match picture_validation env image id db fs with
    | (.error e, fs') => (.error e, db, fs')
    | (.ok (.rejected _), fs') => (.ok false, db, fs')
    | (.ok (.accepted fn), fs') => (.ok true, set_profile_image db id fn, fs')
  else
    (.ok true, db, fs)

/-- The default sentinel `'default.png'` (`models.py` column default). -/
def default_png : List Char := String.toList "default.png"

/-- The extension policy as the specification words it: accept iff the
lowercased substring after the final `'.'` of the filename is in the
allowed set (reject when there is no `'.'` at all). -/
def spec_is_allowed (f : List Char) : Bool :=
  match lastIndexOf f '.' with
  | none => false
  | some d => ((f.drop (d + 1)).map Char.toLower) ∈ allowed_ext

/-- First position of the basename: one past the last `'/'`. -/
def ext_start (f : List Char) : Nat :=
  match lastIndexOf f '/' with
  | none => 0
  | some j => j + 1

/-- The extension policy as `os.path.splitext` actually decides it: the
final `'.'` must moreover lie after the last `'/'` and after at least one
non-dot character of the basename. -/
def spec_is_allowed_amended (f : List Char) : Bool :=
  match lastIndexOf f '.' with
  | none => false
  | some d =>
    decide (ext_start f ≤ d) &&
      ((f.drop (ext_start f)).take (d - ext_start f)).any (fun c => c ≠ '.') &&
      decide (((f.drop (d + 1)).map Char.toLower) ∈ allowed_ext)

theorem lastIndexOf_eq_none {f : List Char} {c : Char} :
    lastIndexOf f c = none ↔ c ∉ f := by
  induction f with
  | nil => simp [lastIndexOf]
  | cons a rest ih =>
    unfold lastIndexOf
    cases hr : lastIndexOf rest c with
    | some i =>
      have hc : c ∈ rest := by
        by_contra hc
        rw [ih.mpr hc] at hr
        exact Option.noConfusion hr
      simp [hr, hc]
    | none =>
      have hc : c ∉ rest := ih.mp hr
      by_cases hac : a = c
      · simp [hr, hac]
      · simp [hr, hac, hc]
        exact fun h => hac h.symm

theorem lastIndexOf_spec {f : List Char} {c : Char} {d : Nat}
    (h : lastIndexOf f c = some d) :
    f.drop d = c :: f.drop (d + 1) ∧ c ∉ f.drop (d + 1) := by
  induction f generalizing d with
  | nil => simp [lastIndexOf] at h
  | cons a rest ih =>
    unfold lastIndexOf at h
    cases hr : lastIndexOf rest c with
    | some i =>
      rw [hr] at h
      simp only [Option.some.injEq] at h
      subst h
      obtain ⟨h1, h2⟩ := ih hr
      constructor
      · simpa using h1
      · simpa using h2
    | none =>
      rw [hr] at h
      by_cases hac : a = c
      · simp [hac] at h
        subst h
        subst hac
        exact ⟨by simp, lastIndexOf_eq_none.mp hr⟩
      · simp [hac] at h

theorem splitext_snd_filter {f : List Char} {d : Nat}
    (h : lastIndexOf f '.' = some d) :
    (f.drop d).filter (fun c => c ≠ '.') = f.drop (d + 1) := by
  obtain ⟨h1, h2⟩ := lastIndexOf_spec h
  rw [h1]
  rw [List.filter_cons]
  simp only [ne_eq, not_true_eq_false, decide_False, if_false]
  exact List.filter_eq_self.mpr (fun a ha => by
    simp only [ne_eq, decide_eq_true_eq]
    exact fun hc => h2 (hc ▸ ha))

/-- Branch structure of `splitext`: it splits at the last `'.'` exactly
when that dot lies inside the basename and some earlier character of the
basename is not a dot. -/
theorem splitext_cases (f : List Char) :
    splitext f =
      match lastIndexOf f '.' with
      | none => (f, [])
      | some d =>
        if ext_start f ≤ d ∧
            ((f.drop (ext_start f)).take (d - ext_start f)).any (fun c => c ≠ '.') = true then
          (f.take d, f.drop d)
        else (f, []) := by
  unfold splitext rfind ext_start
  cases hd : lastIndexOf f '.' with
  | none =>
    cases hs : lastIndexOf f '/' with
    | none => simp
    | some j =>
      have : ¬((j : Int) < -1) := by omega
      simp [this]
  | some d =>
    have e2 : ((d : Int)).toNat = d := by omega
    cases hs : lastIndexOf f '/' with
    | none =>
      have hlt : (-1 : Int) < (d : Int) := by omega
      have e1 : ((-1 : Int) + 1).toNat = 0 := by decide
      rw [if_pos hlt]
      simp only [e1, e2, List.drop_zero, Nat.sub_zero]
      by_cases hany : (f.take d).any (fun c => decide (c ≠ '.')) = true
      · rw [if_pos hany, if_pos ⟨Nat.zero_le d, hany⟩]
      · rw [if_neg hany, if_neg (fun h => hany h.2)]
    | some j =>
      by_cases hjd : j + 1 ≤ d
      · have hlt : (j : Int) < (d : Int) := by omega
        have e3 : (((j : Int)) + 1).toNat = j + 1 := by omega
        rw [if_pos hlt]
        simp only [e2, e3]
        by_cases hany : ((f.drop (j + 1)).take (d - (j + 1))).any (fun c => decide (c ≠ '.')) = true
        · rw [if_pos hany, if_pos ⟨hjd, hany⟩]
        · rw [if_neg hany, if_neg (fun h => hany h.2)]
      · have hlt : ¬((j : Int) < (d : Int)) := by omega
        rw [if_neg hlt]
        dsimp only
        rw [if_neg (fun h => hjd h.1)]

/-- Claim C4 (amended): the implemented extension policy accepts exactly
the filenames whose last `'.'` lies after the last `'/'` and after a
non-dot character of the basename, with the lowercased characters after
that dot in the allowed set; hidden-file names such as `".jpg"` and
dotless names are rejected. -/
theorem c4_extension_policy_splitext (f : List Char) :
    is_allowed f = spec_is_allowed_amended f := by
  unfold is_allowed spec_is_allowed_amended
  rw [splitext_cases]
  cases hd : lastIndexOf f '.' with
  | none => simp [allowed_ext]
  | some d =>
    dsimp only
    by_cases h1 : ext_start f ≤ d
    · by_cases h2 : ((f.drop (ext_start f)).take (d - ext_start f)).any (fun c => decide (c ≠ '.')) = true
      · rw [if_pos ⟨h1, h2⟩]
        dsimp only
        rw [splitext_snd_filter hd, decide_eq_true h1, h2]
        simp only [Bool.true_and]
      · rw [if_neg (fun h => h2 h.2)]
        dsimp only
        rw [Bool.not_eq_true] at h2
        rw [h2, Bool.and_false, Bool.false_and]
        decide
    · rw [if_neg (fun h => h1 h.1)]
      dsimp only
      rw [decide_eq_false h1, Bool.false_and, Bool.false_and]
      decide

theorem lastIndexOf_append_some {xs ys : List Char} {c : Char} {i : Nat}
    (h : lastIndexOf ys c = some i) :
    lastIndexOf (xs ++ ys) c = some (xs.length + i) := by
  induction xs with
  | nil => simpa using h
  | cons a xs ih =>
    show (match lastIndexOf (xs ++ ys) c with
      | some k => some (k + 1)
      | none => if a = c then some 0 else none) = _
    rw [ih]
    simp only [List.length_cons]
    congr 1
    omega

theorem lastIndexOf_append_none {xs ys : List Char} {c : Char}
    (h : lastIndexOf ys c = none) :
    lastIndexOf (xs ++ ys) c = lastIndexOf xs c := by
  induction xs with
  | nil => simpa using h
  | cons a xs ih =>
    show (match lastIndexOf (xs ++ ys) c with
      | some k => some (k + 1)
      | none => if a = c then some 0 else none) = _
    rw [ih]
    rfl

/-- Every value of `(splitext f).2`: either empty, or the suffix of `f`
from its last `'.'`, which contains no `'/'` and no further `'.'`. -/
theorem splitext_snd_cases (f : List Char) :
    (splitext f).2 = [] ∨
      ∃ d, lastIndexOf f '.' = some d ∧ (splitext f).2 = f.drop d ∧
        '.' ∉ f.drop (d + 1) ∧ '/' ∉ f.drop d := by
  rw [splitext_cases]
  cases hd : lastIndexOf f '.' with
  | none => exact Or.inl rfl
  | some d =>
    dsimp only
    by_cases hc : ext_start f ≤ d ∧
        ((f.drop (ext_start f)).take (d - ext_start f)).any (fun c => c ≠ '.') = true
    · rw [if_pos hc]
      refine Or.inr ⟨d, rfl, rfl, (lastIndexOf_spec hd).2, ?_⟩
      intro hmem
      cases hs : lastIndexOf f '/' with
      | none => exact lastIndexOf_eq_none.mp hs (List.mem_of_mem_drop hmem)
      | some j =>
        have hj := (lastIndexOf_spec hs).2
        have hstart : ext_start f = j + 1 := by rw [ext_start, hs]
        have hjd : j + 1 ≤ d := hstart ▸ hc.1
        have : f.drop d = (f.drop (j + 1)).drop (d - (j + 1)) := by
          rw [List.drop_drop]
          congr 1
          omega
        rw [this] at hmem
        exact hj (List.mem_of_mem_drop hmem)
    · rw [if_neg hc]
      exact Or.inl rfl

/-- `splitext` on a generated filename `<16 hex chars> ++ '.' :: rest`
(with a clean extension tail) splits the extension straight back off. -/
theorem splitext_hex_append {t rest : List Char}
    (hlen : t.length = 16)
    (hhex : ∀ c ∈ t, c ∈ String.toList "0123456789abcdef")
    (hdot : '.' ∉ rest) (hsep : '/' ∉ rest) :
    splitext (t ++ '.' :: rest) = (t, '.' :: rest) := by
  have hdott : '.' ∉ t := fun h => by
    have := hhex _ h
    simp at this
  have hsept : '/' ∉ t := fun h => by
    have := hhex _ h
    simp at this
  have h1 : lastIndexOf ('.' :: rest) '.' = some 0 := by
    show (match lastIndexOf rest '.' with
      | some k => some (k + 1)
      | none => if '.' = '.' then some 0 else none) = some 0
    rw [lastIndexOf_eq_none.mpr hdot]
    simp
  have h2 : lastIndexOf (t ++ '.' :: rest) '.' = some 16 := by
    rw [lastIndexOf_append_some h1, hlen]
  have h3 : lastIndexOf ('.' :: rest) '/' = none := by
    refine lastIndexOf_eq_none.mpr ?_
    simp only [List.mem_cons, not_or]
    exact ⟨by decide, hsep⟩
  have h4 : lastIndexOf (t ++ '.' :: rest) '/' = none := by
    rw [lastIndexOf_append_none h3]
    exact lastIndexOf_eq_none.mpr hsept
  have hne : t ≠ [] := by
    intro h
    rw [h] at hlen
    simp at hlen
  have hany : ((t ++ '.' :: rest).take 16).any (fun c => c ≠ '.') = true := by
    rw [← hlen, List.take_left]
    cases t with
    | nil => exact absurd rfl hne
    | cons a ts =>
      have ha : a ∈ String.toList "0123456789abcdef" := hhex a (List.mem_cons_self a ts)
      have : a ≠ '.' := fun h => by rw [h] at ha; simp at ha
      simp [this]
  unfold splitext rfind
  rw [h2, h4]
  rw [if_pos (by omega : (-1 : Int) < (16 : Nat))]
  dsimp only
  have e16 : ((16 : Nat) : Int).toNat = 16 := by omega
  have e0 : ((-1 : Int) + 1).toNat = 0 := by decide
  rw [e16, e0]
  simp only [List.drop_zero, Nat.sub_zero]
  rw [if_pos hany]
  rw [← hlen, List.take_left, List.drop_left]

/-! Helper lemmas about the file-system model and paths. -/

theorem FS.not_mem_remove_self (fs : FS) (p : List Char) :
    p ∉ (fs.remove p).files := by
  intro h
  have := List.of_mem_filter h
  simp at this

theorem FS.mem_of_mem_remove {fs : FS} {p q : List Char}
    (h : q ∈ (fs.remove p).files) : q ∈ fs.files :=
  List.mem_of_mem_filter h

theorem path_join_inj {r a b : List Char} (h : path_join r a = path_join r b) :
    a = b := by
  unfold path_join at h
  have h2 := List.append_cancel_left h
  injection h2

theorem exists_path_eq_true {fs : FS} {p : List Char} (h : p ∈ fs.files) :
    fs.exists_path p = true := by
  simp [FS.exists_path, h]

theorem exists_path_eq_false {fs : FS} {p : List Char} (h : p ∉ fs.files) :
    fs.exists_path p = false := by
  simp [FS.exists_path, h]

/-! Claim theorems. -/

/-- Claim C6: an upload whose filename has a disallowed extension yields the
structured result `(allowed_ext, False)` (no exception), and performs no
file-system and no database mutation. -/
theorem c6_disallowed_structured_no_mutation
    (env : Env) (image : FormPicture) (id : Nat) (db : DB) (fs : FS)
    (hna : is_allowed image.filename = false) (hne : image.filename ≠ []) :
    picture_validation env image id db fs = (.ok (.rejected allowed_ext), fs) ∧
    account_update env image id db fs = (.ok false, db, fs) := by
  have hcond :
      ¬(((splitext image.filename).2.filter (fun c => c ≠ '.')).map Char.toLower ∈ allowed_ext) :=
    of_decide_eq_false hna
  have hpv : picture_validation env image id db fs = (.ok (.rejected allowed_ext), fs) := by
    unfold picture_validation
    rw [if_neg hcond]
  refine ⟨hpv, ?_⟩
  unfold account_update
  rw [if_pos hne, hpv]

/-- Claim C6, witness. -/
theorem c6_disallowed_structured_no_mutation_witness :
    picture_validation ⟨String.toList "/srv/app", String.toList "0123456789abcdef", true⟩
        ⟨String.toList "resume.pdf", some ⟨800, 600⟩⟩ 1
        ⟨[⟨1, default_png⟩]⟩ ⟨[]⟩ =
      (.ok (.rejected allowed_ext), ⟨[]⟩) ∧
    account_update ⟨String.toList "/srv/app", String.toList "0123456789abcdef", true⟩
        ⟨String.toList "resume.pdf", some ⟨800, 600⟩⟩ 1
        ⟨[⟨1, default_png⟩]⟩ ⟨[]⟩ =
      (.ok false, ⟨[⟨1, default_png⟩]⟩, ⟨[]⟩) :=
  c6_disallowed_structured_no_mutation _ _ _ _ _ (by decide) (by decide)

/-- Claim C9: when no user row matches the id, an upload with an allowed
extension raises (`AttributeError` on the `None` lookup result) before
any file is deleted or written, leaving database and disk untouched. -/
theorem c9_missing_user_error_before_fs
    (env : Env) (image : FormPicture) (id : Nat) (db : DB) (fs : FS)
    (hfind : find_user db id = none)
    (ha : is_allowed image.filename = true) (hne : image.filename ≠ []) :
    account_update env image id db fs = (.error .attributeError, db, fs) := by
  have hcond :
      (((splitext image.filename).2.filter (fun c => c ≠ '.')).map Char.toLower ∈ allowed_ext) :=
    of_decide_eq_true ha
  have hpv : picture_validation env image id db fs = (.error .attributeError, fs) := by
    unfold picture_validation save_picture
    rw [if_pos hcond, hfind]
  unfold account_update
  rw [if_pos hne, hpv]

/-- Claim C9, witness. -/
theorem c9_missing_user_error_before_fs_witness :
    account_update ⟨String.toList "/srv/app", String.toList "0123456789abcdef", true⟩
        ⟨String.toList "photo.jpg", some ⟨800, 600⟩⟩ 7
        ⟨[⟨1, default_png⟩]⟩ ⟨[path_join (String.toList "/srv/app") default_png]⟩ =
      (.error .attributeError, ⟨[⟨1, default_png⟩]⟩,
        ⟨[path_join (String.toList "/srv/app") default_png]⟩) :=
  c9_missing_user_error_before_fs _ _ _ _ _ (by decide) (by decide) (by decide)

/-- Claim C3: when thumbnail storage fails — undecodable bytes or a failed disk
write — the exception propagates out of the workflow and the user row is
left unchanged: the persistence step never runs on storage failure. -/
theorem c3_storage_failure_no_persist
    (env : Env) (image : FormPicture) (id : Nat) (db : DB) (fs : FS) (u : User)
    (hfind : find_user db id = some u)
    (ha : is_allowed image.filename = true) (hne : image.filename ≠ []) :
    (image.content = none →
      (account_update env image id db fs).1 = .error .decodeError ∧
      (account_update env image id db fs).2.1 = db) ∧
    (env.save_ok = false → image.content ≠ none →
      (account_update env image id db fs).1 = .error .ioError ∧
      (account_update env image id db fs).2.1 = db) := by
  have hcond :
      (((splitext image.filename).2.filter (fun c => c ≠ '.')).map Char.toLower ∈ allowed_ext) :=
    of_decide_eq_true ha
  constructor
  · intro hcontent
    have hsp : ∃ fs1, save_picture env image id db fs = (.error .decodeError, fs1) := by
      refine ⟨if u.profile_image ≠ [] then
          (if fs.exists_path (path_join env.root_path u.profile_image) then
            fs.remove (path_join env.root_path u.profile_image) else fs) else fs, ?_⟩
      unfold save_picture
      rw [hfind, hcontent]
    obtain ⟨fs1, hsp⟩ := hsp
    have hpv : picture_validation env image id db fs = (.error .decodeError, fs1) := by
      unfold picture_validation
      rw [if_pos hcond, hsp]
    have hau : account_update env image id db fs = (.error .decodeError, db, fs1) := by
      unfold account_update
      rw [if_pos hne, hpv]
    rw [hau]
    exact ⟨rfl, rfl⟩
  · intro hsave hcontent
    obtain ⟨img, himg⟩ := Option.ne_none_iff_exists'.mp hcontent
    have hsp : ∃ fs1, save_picture env image id db fs = (.error .ioError, fs1) := by
      refine ⟨if u.profile_image ≠ [] then
          (if fs.exists_path (path_join env.root_path u.profile_image) then
            fs.remove (path_join env.root_path u.profile_image) else fs) else fs, ?_⟩
      unfold save_picture
      rw [hfind, himg, hsave]
      rfl
    obtain ⟨fs1, hsp⟩ := hsp
    have hpv : picture_validation env image id db fs = (.error .ioError, fs1) := by
      unfold picture_validation
      rw [if_pos hcond, hsp]
    have hau : account_update env image id db fs = (.error .ioError, db, fs1) := by
      unfold account_update
      rw [if_pos hne, hpv]
    rw [hau]
    exact ⟨rfl, rfl⟩

/-- Claim C3, witness. -/
theorem c3_storage_failure_no_persist_witness :
    ((account_update ⟨String.toList "/srv/app", String.toList "0123456789abcdef", true⟩
        ⟨String.toList "broken.jpg", none⟩ 1
        ⟨[⟨1, String.toList "old123.png"⟩]⟩ ⟨[]⟩).1 = .error .decodeError ∧
      (account_update ⟨String.toList "/srv/app", String.toList "0123456789abcdef", true⟩
        ⟨String.toList "broken.jpg", none⟩ 1
        ⟨[⟨1, String.toList "old123.png"⟩]⟩ ⟨[]⟩).2.1 =
          ⟨[⟨1, String.toList "old123.png"⟩]⟩) ∧
    ((account_update ⟨String.toList "/srv/app", String.toList "0123456789abcdef", false⟩
        ⟨String.toList "fine.jpg", some ⟨800, 600⟩⟩ 1
        ⟨[⟨1, String.toList "old123.png"⟩]⟩ ⟨[]⟩).1 = .error .ioError ∧
      (account_update ⟨String.toList "/srv/app", String.toList "0123456789abcdef", false⟩
        ⟨String.toList "fine.jpg", some ⟨800, 600⟩⟩ 1
        ⟨[⟨1, String.toList "old123.png"⟩]⟩ ⟨[]⟩).2.1 =
          ⟨[⟨1, String.toList "old123.png"⟩]⟩) :=
  ⟨(c3_storage_failure_no_persist _ _ _ _ _ ⟨1, String.toList "old123.png"⟩
      (by decide) (by decide) (by decide)).1 rfl,
   (c3_storage_failure_no_persist _ _ _ _ _ ⟨1, String.toList "old123.png"⟩
      (by decide) (by decide) (by decide)).2 rfl (by decide)⟩

/-- Claim C5: for a user whose current `profile_image` is a non-default stored
filename, a successful upload with an allowed extension removes the old
stored file, writes the new thumbnail, persists the generated filename
on the user row, and reaches the success return. -/
theorem c5_replace_nondefault_success
    (env : Env) (image : FormPicture) (id : Nat) (db : DB) (fs : FS) (u : User) (img : Img)
    (hfind : find_user db id = some u)
    (_hnd : u.profile_image ≠ default_png) (hpi : u.profile_image ≠ [])
    (ha : is_allowed image.filename = true) (hne : image.filename ≠ [])
    (himg : image.content = some img) (hsave : env.save_ok = true)
    (hfresh : u.profile_image ≠ env.token ++ (splitext image.filename).2) :
    ∃ fs' : FS,
      account_update env image id db fs =
        (.ok true, set_profile_image db id (env.token ++ (splitext image.filename).2), fs') ∧
      path_join env.root_path (env.token ++ (splitext image.filename).2) ∈ fs'.files ∧
      path_join env.root_path u.profile_image ∉ fs'.files := by
  have hcond :
      (((splitext image.filename).2.filter (fun c => c ≠ '.')).map Char.toLower ∈ allowed_ext) :=
    of_decide_eq_true ha
  have hpne : path_join env.root_path u.profile_image ≠
      path_join env.root_path (env.token ++ (splitext image.filename).2) :=
    fun h => hfresh (path_join_inj h)
  by_cases hex : path_join env.root_path u.profile_image ∈ fs.files
  case pos =>
    have hsp : save_picture env image id db fs =
        (.ok (env.token ++ (splitext image.filename).2),
          (fs.remove (path_join env.root_path u.profile_image)).write
            (path_join env.root_path (env.token ++ (splitext image.filename).2))) := by
      unfold save_picture
      rw [hfind]
      simp only [hpi, himg, hsave, ne_eq, not_false_eq_true, if_true,
        exists_path_eq_true hex]
    have hpv : picture_validation env image id db fs =
        (.ok (.accepted (env.token ++ (splitext image.filename).2)),
          (fs.remove (path_join env.root_path u.profile_image)).write
            (path_join env.root_path (env.token ++ (splitext image.filename).2))) := by
      unfold picture_validation
      rw [if_pos hcond, hsp]
    refine ⟨(fs.remove (path_join env.root_path u.profile_image)).write
        (path_join env.root_path (env.token ++ (splitext image.filename).2)), ?_, ?_, ?_⟩
    · unfold account_update
      rw [if_pos hne, hpv]
    · exact List.mem_cons_self _ _
    · intro h
      rcases List.mem_cons.mp h with heq | hmem
      · exact hpne heq
      · exact FS.not_mem_remove_self _ _ (FS.mem_of_mem_remove hmem)
  case neg =>
    have hsp : save_picture env image id db fs =
        (.ok (env.token ++ (splitext image.filename).2),
          fs.write (path_join env.root_path (env.token ++ (splitext image.filename).2))) := by
      unfold save_picture
      rw [hfind]
      simp only [hpi, himg, hsave, ne_eq, not_false_eq_true, if_true,
        exists_path_eq_false hex, if_false, Bool.false_eq_true]
    have hpv : picture_validation env image id db fs =
        (.ok (.accepted (env.token ++ (splitext image.filename).2)),
          fs.write (path_join env.root_path (env.token ++ (splitext image.filename).2))) := by
      unfold picture_validation
      rw [if_pos hcond, hsp]
    refine ⟨fs.write
        (path_join env.root_path (env.token ++ (splitext image.filename).2)), ?_, ?_, ?_⟩
    · unfold account_update
      rw [if_pos hne, hpv]
    · exact List.mem_cons_self _ _
    · intro h
      rcases List.mem_cons.mp h with heq | hmem
      · exact hpne heq
      · exact hex (FS.mem_of_mem_remove hmem)

/-- Claim C7: on the success path the generated stored filename is exactly the
16-hexadecimal-character token returned by the random source concatenated
with the original filename's extension as `splitext` extracts it (dot
included, case preserved). -/
theorem c7_generated_filename
    (env : Env) (image : FormPicture) (id : Nat) (db : DB) (fs : FS) (u : User) (img : Img)
    (htok : token_hex_spec env.token)
    (hfind : find_user db id = some u)
    (himg : image.content = some img) (hsave : env.save_ok = true) :
    (save_picture env image id db fs).1 =
      .ok (env.token ++ (splitext image.filename).2) ∧
    env.token.length = 16 ∧
    ∀ c ∈ env.token, c ∈ String.toList "0123456789abcdef" := by
  refine ⟨?_, htok.1, htok.2⟩
  unfold save_picture
  rw [hfind, himg, hsave]
  rfl

/-- Claim C7, witness. -/
theorem c7_generated_filename_witness :
    (save_picture ⟨String.toList "/srv/app", String.toList "0123456789abcdef", true⟩
        ⟨String.toList "photo.JPG", some ⟨2000, 1000⟩⟩ 1
        ⟨[⟨1, default_png⟩]⟩ ⟨[]⟩).1 =
      .ok (String.toList "0123456789abcdef" ++
        (splitext (String.toList "photo.JPG")).2) ∧
    (String.toList "0123456789abcdef").length = 16 ∧
    ∀ c ∈ String.toList "0123456789abcdef", c ∈ String.toList "0123456789abcdef" :=
  c7_generated_filename _ _ _ _ _ ⟨1, default_png⟩ ⟨2000, 1000⟩
    (by constructor <;> decide) (by decide) rfl rfl

/-- Claim C8: the modelled thumbnail resize fits inside the 125x125 bounding
box and never upscales: an image already inside the box is unchanged. -/
theorem c8_thumbnail_bounds (img : Img) :
    (thumbnail img).width ≤ 125 ∧ (thumbnail img).height ≤ 125 ∧
    (img.width ≤ 125 → img.height ≤ 125 → thumbnail img = img) := by
  by_cases h : img.width ≤ 125 ∧ img.height ≤ 125
  · unfold thumbnail
    rw [if_pos h]
    exact ⟨h.1, h.2, fun _ _ => rfl⟩
  · unfold thumbnail
    rw [if_neg h]
    by_cases hwh : img.height ≤ img.width
    · rw [if_pos hwh]
      have hw : 0 < img.width := by
        rcases not_and_or.mp h with h2 | h2 <;> omega
      have hdiv : img.height * 125 / img.width ≤ 125 := by
        have h1 : img.height * 125 / img.width ≤ img.width * 125 / img.width :=
          Nat.div_le_div_right (Nat.mul_le_mul_right 125 hwh)
        have h2 : img.width * 125 / img.width = 125 := by
          rw [Nat.mul_comm]
          exact Nat.mul_div_cancel 125 hw
        omega
      exact ⟨Nat.le_refl 125, Nat.max_le.mpr ⟨by omega, hdiv⟩,
        fun hw hh => absurd ⟨hw, hh⟩ h⟩
    · rw [if_neg hwh]
      have hh : 0 < img.height := by omega
      have hdiv : img.width * 125 / img.height ≤ 125 := by
        have h1 : img.width * 125 / img.height ≤ img.height * 125 / img.height :=
          Nat.div_le_div_right (Nat.mul_le_mul_right 125 (by omega))
        have h2 : img.height * 125 / img.height = 125 := by
          rw [Nat.mul_comm]
          exact Nat.mul_div_cancel 125 hh
        omega
      exact ⟨Nat.max_le.mpr ⟨by omega, hdiv⟩, Nat.le_refl 125,
        fun hw hh => absurd ⟨hw, hh⟩ h⟩

/-- Claim C8, witness: a 2000x1000 input is clamped to 125x62; a 100x50 input is
left untouched. -/
theorem c8_thumbnail_bounds_witness :
    (thumbnail ⟨2000, 1000⟩).width ≤ 125 ∧ thumbnail ⟨100, 50⟩ = ⟨100, 50⟩ :=
  ⟨(c8_thumbnail_bounds ⟨2000, 1000⟩).1,
   (c8_thumbnail_bounds ⟨100, 50⟩).2.2 (by decide) (by decide)⟩

/-- Claim C1 (code bug): contrary to the specification, a user whose `profile_image` is the
default sentinel does have a delete performed: the upload succeeds and the
stored `default.png` file, present beforehand, is gone afterwards (the
code only checks truthiness of `profile_image`, not the sentinel). -/
theorem c1_default_sentinel_deleted :
    (account_update ⟨String.toList "/srv/app", String.toList "0123456789abcdef", true⟩
        ⟨String.toList "photo.JPG", some ⟨2000, 1000⟩⟩ 1
        ⟨[⟨1, default_png⟩]⟩
        ⟨[path_join (String.toList "/srv/app") default_png]⟩).1 = .ok true ∧
    path_join (String.toList "/srv/app") default_png ∉
      (account_update ⟨String.toList "/srv/app", String.toList "0123456789abcdef", true⟩
        ⟨String.toList "photo.JPG", some ⟨2000, 1000⟩⟩ 1
        ⟨[⟨1, default_png⟩]⟩
        ⟨[path_join (String.toList "/srv/app") default_png]⟩).2.2.files := by
  decide

/-- Claim C2, counterexample: on a run whose decode fails after the old file was
already deleted, the persisted record still names `old123.png` while that
file no longer exists — an observable state in which `profile_image`
points at a missing file. -/
theorem c2_counterexample :
    (account_update ⟨String.toList "/srv/app", String.toList "0123456789abcdef", true⟩
        ⟨String.toList "shot.png", none⟩ 1
        ⟨[⟨1, String.toList "old123.png"⟩]⟩
        ⟨[path_join (String.toList "/srv/app") (String.toList "old123.png")]⟩).1 =
      .error .decodeError ∧
    find_user (account_update ⟨String.toList "/srv/app", String.toList "0123456789abcdef", true⟩
        ⟨String.toList "shot.png", none⟩ 1
        ⟨[⟨1, String.toList "old123.png"⟩]⟩
        ⟨[path_join (String.toList "/srv/app") (String.toList "old123.png")]⟩).2.1 1 =
      some ⟨1, String.toList "old123.png"⟩ ∧
    path_join (String.toList "/srv/app") (String.toList "old123.png") ∉
      (account_update ⟨String.toList "/srv/app", String.toList "0123456789abcdef", true⟩
        ⟨String.toList "shot.png", none⟩ 1
        ⟨[⟨1, String.toList "old123.png"⟩]⟩
        ⟨[path_join (String.toList "/srv/app") (String.toList "old123.png")]⟩).2.2.files := by
  decide

/-- Claim C4, counterexample: on the hidden-file name `".jpg"` the
substring-after-the-final-dot reading accepts while the implemented
policy (via `splitext`) rejects, so the claimed characterisation is not
the implemented one. -/
theorem c4_counterexample :
    spec_is_allowed (String.toList ".jpg") = true ∧
    is_allowed (String.toList ".jpg") = false := by
  decide

/-- Claim C2 (amended): the persisted `profile_image` changes only after
thumbnail storage succeeds — every erroring run leaves the database
untouched — but the previously referenced file is deleted before
storage, so after a decode failure the record's old filename no longer
has a file on disk. -/
theorem c2_persist_only_after_storage
    (env : Env) (image : FormPicture) (id : Nat) (db : DB) (fs : FS) :
    (∀ e, (account_update env image id db fs).1 = .error e →
      (account_update env image id db fs).2.1 = db) ∧
    (∀ u, find_user db id = some u → u.profile_image ≠ [] →
      is_allowed image.filename = true → image.filename ≠ [] →
      image.content = none →
      path_join env.root_path u.profile_image ∉
        (account_update env image id db fs).2.2.files) := by
  constructor
  · intro e h
    unfold account_update at h ⊢
    by_cases hne : image.filename ≠ []
    · rw [if_pos hne] at h ⊢
      rcases hq : picture_validation env image id db fs with ⟨r, fs2⟩
      rw [hq] at h
      cases r with
      | error e2 => rfl
      | ok pr =>
        cases pr with
        | accepted fn => exact Except.noConfusion h
        | rejected exts => exact Except.noConfusion h
    · rw [if_neg hne] at h
      exact absurd h (by simp)
  · intro u hfind hpi ha hne hcontent
    have hcond :
        (((splitext image.filename).2.filter (fun c => c ≠ '.')).map Char.toLower
          ∈ allowed_ext) :=
      of_decide_eq_true ha
    by_cases hex : path_join env.root_path u.profile_image ∈ fs.files
    case pos =>
      have hsp : save_picture env image id db fs =
          (.error .decodeError, fs.remove (path_join env.root_path u.profile_image)) := by
        unfold save_picture
        rw [hfind]
        simp only [hpi, hcontent, ne_eq, not_false_eq_true, if_true,
          exists_path_eq_true hex]
      have hpv : picture_validation env image id db fs =
          (.error .decodeError, fs.remove (path_join env.root_path u.profile_image)) := by
        unfold picture_validation
        rw [if_pos hcond, hsp]
      have hau : account_update env image id db fs =
          (.error .decodeError, db, fs.remove (path_join env.root_path u.profile_image)) := by
        unfold account_update
        rw [if_pos hne, hpv]
      rw [hau]
      exact FS.not_mem_remove_self _ _
    case neg =>
      have hsp : save_picture env image id db fs = (.error .decodeError, fs) := by
        unfold save_picture
        rw [hfind]
        simp only [hpi, hcontent, ne_eq, not_false_eq_true, if_true,
          exists_path_eq_false hex, if_false, Bool.false_eq_true]
      have hpv : picture_validation env image id db fs = (.error .decodeError, fs) := by
        unfold picture_validation
        rw [if_pos hcond, hsp]
      have hau : account_update env image id db fs = (.error .decodeError, db, fs) := by
        unfold account_update
        rw [if_pos hne, hpv]
      rw [hau]
      exact hex

/-- Claim C2, witness. -/
theorem c2_persist_only_after_storage_witness :
    (account_update ⟨String.toList "/srv/app", String.toList "0123456789abcdef", true⟩
        ⟨String.toList "shot.png", none⟩ 1
        ⟨[⟨1, String.toList "old123.png"⟩]⟩
        ⟨[path_join (String.toList "/srv/app") (String.toList "old123.png")]⟩).2.1 =
      ⟨[⟨1, String.toList "old123.png"⟩]⟩ ∧
    path_join (String.toList "/srv/app") (String.toList "old123.png") ∉
      (account_update ⟨String.toList "/srv/app", String.toList "0123456789abcdef", true⟩
        ⟨String.toList "shot.png", none⟩ 1
        ⟨[⟨1, String.toList "old123.png"⟩]⟩
        ⟨[path_join (String.toList "/srv/app") (String.toList "old123.png")]⟩).2.2.files :=
  ⟨(c2_persist_only_after_storage _ _ _ _ _).1 .decodeError (by decide),
   (c2_persist_only_after_storage _ _ _ _ _).2 ⟨1, String.toList "old123.png"⟩
      (by decide) (by decide) (by decide) (by decide) rfl⟩

/-- Claim C5, witness. -/
theorem c5_replace_nondefault_success_witness :
    ∃ fs' : FS,
      account_update ⟨String.toList "/srv/app", String.toList "0123456789abcdef", true⟩
          ⟨String.toList "shot.png", some ⟨2000, 1000⟩⟩ 1
          ⟨[⟨1, String.toList "old123.png"⟩]⟩
          ⟨[path_join (String.toList "/srv/app") (String.toList "old123.png")]⟩ =
        (.ok true,
          set_profile_image ⟨[⟨1, String.toList "old123.png"⟩]⟩ 1
            (String.toList "0123456789abcdef" ++ (splitext (String.toList "shot.png")).2),
          fs') ∧
      path_join (String.toList "/srv/app")
          (String.toList "0123456789abcdef" ++ (splitext (String.toList "shot.png")).2) ∈
        fs'.files ∧
      path_join (String.toList "/srv/app") (String.toList "old123.png") ∉ fs'.files :=
  c5_replace_nondefault_success _ _ _ _ _ ⟨1, String.toList "old123.png"⟩ ⟨2000, 1000⟩
    (by decide) (by decide) (by decide) (by decide) (by decide) rfl rfl (by decide)

theorem save_picture_ok_filename {env : Env} {image : FormPicture} {id : Nat}
    {db : DB} {fs : FS} {r : List Char} {fs3 : FS}
    (h : save_picture env image id db fs = (.ok r, fs3)) :
    r = env.token ++ (splitext image.filename).2 := by
  unfold save_picture at h
  cases hfind : find_user db id with
  | none =>
    rw [hfind] at h
    injection h with h1 _
    exact Except.noConfusion h1
  | some u =>
    rw [hfind] at h
    dsimp only at h
    cases himg : image.content with
    | none =>
      rw [himg] at h
      injection h with h1 _
      exact Except.noConfusion h1
    | some img =>
      rw [himg] at h
      by_cases hsave : env.save_ok = true
      · rw [if_pos hsave] at h
        injection h with h1 _
        injection h1 with h1'
        exact h1'.symm
      · rw [if_neg hsave] at h
        injection h with h1 _
        exact Except.noConfusion h1

/-- Claim C10: whenever `picture_validation` returns with success flag `True`,
the returned stored filename itself passes the extension policy: its
extension, lowercased and dot-stripped, is in the allowed set. -/
theorem c10_success_filename_allowed
    (env : Env) (image : FormPicture) (id : Nat) (db : DB) (fs : FS)
    (fn : List Char) (fs2 : FS)
    (htok : token_hex_spec env.token)
    (hpv : picture_validation env image id db fs = (.ok (.accepted fn), fs2)) :
    is_allowed fn = true := by
  unfold picture_validation at hpv
  by_cases hcond :
      (((splitext image.filename).2.filter (fun c => c ≠ '.')).map Char.toLower ∈ allowed_ext)
  case neg =>
    rw [if_neg hcond] at hpv
    injection hpv with h1 _
    injection h1 with h1'
    exact PicResult.noConfusion h1'
  case pos =>
    rw [if_pos hcond] at hpv
    rcases hsp : save_picture env image id db fs with ⟨r, fs3⟩
    rw [hsp] at hpv
    cases r with
    | error e =>
      injection hpv with h1 _
      exact Except.noConfusion h1
    | ok pfn =>
      have hfn : fn = pfn := by
        injection hpv with h1 _
        injection h1 with h1'
        injection h1' with h1''
        exact h1''.symm
      have hval : pfn = env.token ++ (splitext image.filename).2 :=
        save_picture_ok_filename hsp
      subst hfn
      rw [hval]
      rcases splitext_snd_cases image.filename with hsnd | ⟨d, hd, hsnd, hdot, hsep⟩
      · rw [hsnd] at hcond
        simp [allowed_ext] at hcond
      · have hdropd := (lastIndexOf_spec hd).1
        have hsep2 : '/' ∉ image.filename.drop (d + 1) := fun hm =>
          hsep (hdropd ▸ List.mem_cons_of_mem '.' hm)
        have hsplit := splitext_hex_append htok.1 htok.2 hdot hsep2
        rw [hsnd, hdropd]
        unfold is_allowed
        rw [hsplit]
        have : (('.' :: image.filename.drop (d + 1)).filter (fun c => c ≠ '.')) =
            image.filename.drop (d + 1) := by
          rw [← hdropd]
          exact splitext_snd_filter hd
        dsimp only
        rw [this]
        rw [hsnd, hdropd] at hcond
        rw [this] at hcond
        exact decide_eq_true hcond

/-- Claim C10, witness. -/
theorem c10_success_filename_allowed_witness :
    is_allowed (String.toList "0123456789abcdef" ++
      (splitext (String.toList "photo.JPG")).2) = true :=
  c10_success_filename_allowed
    ⟨String.toList "/srv/app", String.toList "0123456789abcdef", true⟩
    ⟨String.toList "photo.JPG", some ⟨2000, 1000⟩⟩ 1
    ⟨[⟨1, default_png⟩]⟩ ⟨[]⟩
    (String.toList "0123456789abcdef" ++ (splitext (String.toList "photo.JPG")).2)
    ⟨[path_join (String.toList "/srv/app")
        (String.toList "0123456789abcdef" ++ (splitext (String.toList "photo.JPG")).2)]⟩
    (by constructor <;> decide) (by decide)
